import Mathlib

/-
Verification of the Taegis Magic specification: the Evidence Store
(staging, deduplication, tenant partitioning, persistence), the
Investigation Publisher, the Result Tagger transforms (timestamp
conversion, entity normalization, relation building, severity
bucketing) and the Context Query Generator (entity escaping).
-/

namespace Taegis

/-- Modelled from the spec: the three evidence kinds managed by the
Evidence Store (`alerts`, `events`, `search_queries`).  The implementation
module `taegis_magic` is not present under `src/` (only documentation),
so the data model follows spec section 3. -/
inductive EvidenceKind
  | alert
  | event
  | search_query
deriving DecidableEq

/-- Modelled from the spec: an EvidenceItem is
`{kind, identifier, tenant id, raw payload}` (spec section 3), plus the
optional investigation id used by the `--investigation-id` append
workflow of `src/docs/jupyter/investigations.md`. -/
structure EvidenceItem where
  kind : EvidenceKind
  identifier : String
  tenant_id : String
  investigation_id : Option String
  raw : List (String × String)
deriving DecidableEq

/-- Modelled from the spec: the uniqueness key of an EvidenceItem,
`(kind, identifier, tenant id)`. -/
def keyOf (i : EvidenceItem) : EvidenceKind × String × String :=
  (i.kind, i.identifier, i.tenant_id)

/-- The store's uniqueness invariant: no two items share a key. -/
def UniqueKeys (s : List EvidenceItem) : Prop :=
  s.Pairwise (fun a b => keyOf a ≠ keyOf b)

/-- Number of items in the store carrying a given key. -/
def countKey (s : List EvidenceItem) (k : EvidenceKind × String × String) : Nat :=
  s.countP (fun j => decide (keyOf j = k))

/-- Modelled from the spec: `stage` inserts an item unless an item with
the same `(kind, identifier, tenant id)` key is already present
(deduplication on write, spec section 4.3). -/
def stageItem (s : List EvidenceItem) (i : EvidenceItem) : List EvidenceItem :=
  if ∃ j ∈ s, keyOf j = keyOf i then s else s ++ [i]

/-- Modelled from the spec: `stage(kind, items, tenant_id)` inserts a
batch of items one by one, deduplicating each. -/
def stage (s : List EvidenceItem) (items : List EvidenceItem) : List EvidenceItem :=
  items.foldl stageItem s

/-- Modelled from the spec: `show()` filtered by tenant returns the
staged items of that tenant only. -/
def showTenant (s : List EvidenceItem) (t : String) : List EvidenceItem :=
  s.filter (fun i => decide (i.tenant_id = t))

/-- Modelled from the spec: `clear()` empties the store. -/
def clearStore : List EvidenceItem := []

/-- Modelled from the spec: `remove(kind, identifier)` drops the items
matching the given kind and identifier. -/
def removeItems (s : List EvidenceItem) (k : EvidenceKind) (ident : String) :
    List EvidenceItem :=
  s.filter (fun i => decide (¬(i.kind = k ∧ i.identifier = ident)))

/-- Result of an Investigation Publisher call: the evidence attached to
the remote investigation, and the Evidence Store left behind. -/
structure PublishResult where
  attached : List EvidenceItem
  store : List EvidenceItem

/-- Modelled from the spec: create mode attaches the evidence staged for
the given tenant (restricted to items not yet assigned to an
investigation, the `NEW` evidence of the docs) and does not clear the
store (spec sections 3 and 4.5). -/
def publishCreate (s : List EvidenceItem) (tenant : String) : PublishResult :=
  { attached := s.filter (fun i => decide (i.tenant_id = tenant ∧ i.investigation_id = none))
    store := s }

/-- Modelled from the spec: append mode attaches the items staged for the
given investigation id and clears exactly those from the store
(spec section 4.5). -/
def publishAppend (s : List EvidenceItem) (inv : String) : PublishResult :=
  { attached := s.filter (fun i => decide (i.investigation_id = some inv))
    store := s.filter (fun i => decide (¬ i.investigation_id = some inv)) }

/- Persistence: a simple structured serialization of the store. -/

/-- Flatten an association list of string pairs into a flat string list. -/
def flattenPairs (l : List (String × String)) : List String :=
  l.foldr (fun p acc => p.1 :: p.2 :: acc) []

/-- Re-pair a flat string list; fails on odd length. -/
def unflattenPairs : List String → Option (List (String × String))
  | [] => some []
  | a :: b :: rest => (unflattenPairs rest).map (fun l => (a, b) :: l)
  | [_] => none

def kindToString : EvidenceKind → String
  | .alert => "alerts"
  | .event => "events"
  | .search_query => "search_queries"

def kindOfString (s : String) : Option EvidenceKind :=
  if s = "alerts" then some .alert
  else if s = "events" then some .event
  else if s = "search_queries" then some .search_query
  else none

def encodeOptTag : Option String → String
  | none => "none"
  | some _ => "some"

def encodeOptVal : Option String → String
  | none => ""
  | some v => v

def decodeOpt (tag v : String) : Option (Option String) :=
  if tag = "some" then some (some v)
  else if tag = "none" then some none
  else none

/-- Modelled from the spec: an implementation-chosen simple structured
serialization of one EvidenceItem for the `--database` file
(spec section 6: the exact on-disk layout is not part of the contract). -/
def encodeItem (i : EvidenceItem) : List String :=
  kindToString i.kind :: i.identifier :: i.tenant_id ::
    encodeOptTag i.investigation_id :: encodeOptVal i.investigation_id ::
    flattenPairs i.raw

def decodeItem : List String → Option EvidenceItem
  | k :: ident :: ten :: tag :: v :: rest =>
    match kindOfString k, decodeOpt tag v, unflattenPairs rest with
    | some kk, some oi, some raw => some ⟨kk, ident, ten, oi, raw⟩
    | _, _, _ => none
  | _ => none

def encodeStore (s : List EvidenceItem) : List (List String) :=
  s.map encodeItem

def decodeStore : List (List String) → Option (List EvidenceItem)
  | [] => some []
  | r :: rs =>
    match decodeItem r, decodeStore rs with
    | some i, some l => some (i :: l)
    | _, _ => none

/-- Modelled from the spec: the Evidence Store together with the optional
persistence path (`--database`) and the current full content of the
persistence file. -/
structure Database where
  items : List EvidenceItem
  path : Option String
  file : Option (List (List String))

/-- Modelled from the spec: every mutating operation durably writes the
full store state when a path is configured (load-all/write-all
persistence, spec section 4.3); absent a path the file is untouched. -/
def writeBack (db : Database) (items : List EvidenceItem) : Database :=
  { items := items
    path := db.path
    file := if db.path.isSome then some (encodeStore items) else db.file }

def dbStage (db : Database) (items : List EvidenceItem) : Database :=
  writeBack db (stage db.items items)

def dbRemove (db : Database) (k : EvidenceKind) (ident : String) : Database :=
  writeBack db (removeItems db.items k ident)

def dbClear (db : Database) : Database :=
  writeBack db clearStore

/- Sample data used by the witnesses. -/

def sampleAlert : EvidenceItem :=
  ⟨.alert, "alert-1", "tenant-1", none, [("severity", "high")]⟩

def sampleB : EvidenceItem :=
  ⟨.alert, "alert-2", "tenant-2", none, []⟩

def sampleInv : EvidenceItem :=
  ⟨.event, "event-1", "tenant-1", some "inv-9", []⟩

/- Helper lemmas about the store. -/

theorem countKey_eq_zero {s : List EvidenceItem} {k : EvidenceKind × String × String}
    (h : ∀ j ∈ s, keyOf j ≠ k) : countKey s k = 0 := by
  unfold countKey
  exact List.countP_eq_zero.mpr (by simpa using h)

theorem countKey_eq_one {s : List EvidenceItem} {k : EvidenceKind × String × String}
    (hu : UniqueKeys s) (hex : ∃ j ∈ s, keyOf j = k) : countKey s k = 1 := by
  induction s with
  | nil => simp at hex
  | cons a t ih =>
    rcases List.pairwise_cons.mp hu with ⟨ha, ht⟩
    by_cases hk : keyOf a = k
    · have hz : countKey t k = 0 :=
        countKey_eq_zero (fun j hj => fun e => ha j hj (hk.trans e.symm))
      unfold countKey at hz ⊢
      rw [List.countP_cons_of_pos _ _ (by simpa using hk), hz]
    · rcases hex with ⟨j, hj, hjk⟩
      rcases List.mem_cons.mp hj with rfl | hjt
      · exact absurd hjk hk
      · have h1 : countKey t k = 1 := ih ht ⟨j, hjt, hjk⟩
        unfold countKey at h1 ⊢
        rw [List.countP_cons_of_neg _ _ (by simpa using hk), h1]

/-- C1: staging the same EvidenceItem (same kind, identifier, tenant id)
twice leaves the store with exactly one copy of that item; the
`(kind, identifier, tenant id)` key is unique within the store and
re-staging an already-present item is a no-op. -/
theorem c1_stage_idempotent (s : List EvidenceItem) (i : EvidenceItem)
    (hu : UniqueKeys s) :
    stageItem (stageItem s i) i = stageItem s i
    ∧ countKey (stageItem s i) (keyOf i) = 1
    ∧ UniqueKeys (stageItem s i)
    ∧ (∀ j ∈ s, keyOf j = keyOf i → stageItem s i = s) := by
  by_cases hc : ∃ j ∈ s, keyOf j = keyOf i
  · have hs : stageItem s i = s := by simp [stageItem, hc]
    refine ⟨by rw [hs, hs], ?_, by rw [hs]; exact hu, fun j hj hk => hs⟩
    rw [hs]
    exact countKey_eq_one hu hc
  · have hs : stageItem s i = s ++ [i] := by simp [stageItem, hc]
    have hnot : ∀ j ∈ s, keyOf j ≠ keyOf i := by
      intro j hj he
      exact hc ⟨j, hj, he⟩
    refine ⟨?_, ?_, ?_, fun j hj hk => absurd hk (hnot j hj)⟩
    · rw [hs]
      have hex2 : ∃ j ∈ s ++ [i], keyOf j = keyOf i := ⟨i, by simp, rfl⟩
      simp only [stageItem]
      rw [if_pos hex2]
    · rw [hs]
      unfold countKey
      rw [List.countP_append]
      have h0 : countKey s (keyOf i) = 0 := countKey_eq_zero hnot
      unfold countKey at h0
      simp [h0]
    · rw [hs]
      unfold UniqueKeys at hu ⊢
      rw [List.pairwise_append]
      exact ⟨hu, by simp, fun a ha b hb => by
        simp only [List.mem_singleton] at hb
        subst hb
        exact hnot a ha⟩

/-- Witness for C1 at a concrete store and item. -/
theorem c1_stage_idempotent_witness :
    stageItem (stageItem [sampleAlert] sampleAlert) sampleAlert
      = stageItem [sampleAlert] sampleAlert
    ∧ countKey (stageItem [sampleAlert] sampleAlert) (keyOf sampleAlert) = 1
    ∧ UniqueKeys (stageItem [sampleAlert] sampleAlert) := by
  have h := c1_stage_idempotent [sampleAlert] sampleAlert (by simp [UniqueKeys])
  exact ⟨h.1, h.2.1, h.2.2.1⟩

/-- C2: `show()` filtered by tenant A returns only items staged under
tenant A (never an item of tenant B), and the Investigation Publisher
attaches to an investigation created under tenant B only evidence staged
under tenant B (tenant partition before attaching). -/
theorem c2_tenant_partition (s : List EvidenceItem) (a b : String) (i : EvidenceItem) :
    (i ∈ showTenant s a → i.tenant_id = a)
    ∧ (a ≠ b → i.tenant_id = b → i ∉ showTenant s a)
    ∧ (i ∈ (publishCreate s b).attached → i.tenant_id = b)
    ∧ (a ≠ b → i.tenant_id = a → i ∉ (publishCreate s b).attached) := by
  refine ⟨?_, ?_, ?_, ?_⟩
  · intro hm
    have := (List.mem_filter.mp hm).2
    simpa using this
  · intro hab hib hm
    have := (List.mem_filter.mp hm).2
    simp only [decide_eq_true_eq] at this
    exact hab (hib ▸ this).symm
  · intro hm
    have := (List.mem_filter.mp hm).2
    simp only [decide_eq_true_eq] at this
    exact this.1
  · intro hab hia hm
    have := (List.mem_filter.mp hm).2
    simp only [decide_eq_true_eq] at this
    exact hab (hia ▸ this.1)

/-- Witness for C2: a tenant-2 item is invisible to a tenant-1 `show()`
and is never attached by a tenant-1 create. -/
theorem c2_tenant_partition_witness :
    sampleB ∉ showTenant [sampleAlert, sampleB] "tenant-1"
    ∧ sampleB ∉ (publishCreate [sampleAlert, sampleB] "tenant-1").attached := by
  refine ⟨?_, ?_⟩
  · exact (c2_tenant_partition [sampleAlert, sampleB] "tenant-1" "tenant-2" sampleB).2.1
      (by decide) rfl
  · exact (c2_tenant_partition [sampleAlert, sampleB] "tenant-2" "tenant-1" sampleB).2.2.2
      (by decide) rfl

/- Round-trip lemmas for persistence. -/

theorem unflatten_flatten (l : List (String × String)) :
    unflattenPairs (flattenPairs l) = some l := by
  induction l with
  | nil => rfl
  | cons p t ih =>
    simp only [flattenPairs] at ih ⊢
    simp [unflattenPairs, ih]

theorem kind_roundtrip (k : EvidenceKind) : kindOfString (kindToString k) = some k := by
  cases k <;> rfl

theorem decodeItem_encodeItem (i : EvidenceItem) : decodeItem (encodeItem i) = some i := by
  cases i with
  | mk k ident ten inv raw =>
    cases inv <;>
      simp [encodeItem, decodeItem, kind_roundtrip, decodeOpt, encodeOptTag,
        encodeOptVal, unflatten_flatten]

theorem decodeStore_encodeStore (s : List EvidenceItem) :
    decodeStore (encodeStore s) = some s := by
  induction s with
  | nil => rfl
  | cons i t ih =>
    simp only [encodeStore] at ih ⊢
    simp [decodeStore, decodeItem_encodeItem, ih]

/-- C4: writing the Evidence Store to its persistence file and reloading
yields a set of EvidenceItems equal to the original (order-independent),
and when a path is configured every mutating operation (stage, remove,
clear) writes the full store state to the file. -/
theorem c4_roundtrip_persistence (s : List EvidenceItem) (db : Database)
    (items : List EvidenceItem) (k : EvidenceKind) (ident : String)
    (hp : db.path.isSome) :
    decodeStore (encodeStore s) = some s
    ∧ (∀ l, decodeStore (encodeStore s) = some l → ∀ j, j ∈ l ↔ j ∈ s)
    ∧ (dbStage db items).file = some (encodeStore (dbStage db items).items)
    ∧ (dbRemove db k ident).file = some (encodeStore (dbRemove db k ident).items)
    ∧ (dbClear db).file = some (encodeStore (dbClear db).items) := by
  refine ⟨decodeStore_encodeStore s, ?_, ?_, ?_, ?_⟩
  · intro l hl j
    rw [decodeStore_encodeStore s] at hl
    cases hl
    rfl
  · simp [dbStage, writeBack, hp]
  · simp [dbRemove, writeBack, hp]
  · simp [dbClear, writeBack, hp]

/-- Witness for C4 at a concrete store and a database with a configured
path. -/
theorem c4_roundtrip_persistence_witness :
    decodeStore (encodeStore [sampleAlert, sampleB]) = some [sampleAlert, sampleB]
    ∧ (dbStage ⟨[sampleAlert], some "evidence.db", none⟩ [sampleB]).file
        = some (encodeStore (dbStage ⟨[sampleAlert], some "evidence.db", none⟩ [sampleB]).items)
    ∧ (dbClear ⟨[sampleAlert], some "evidence.db", none⟩).file
        = some (encodeStore (dbClear ⟨[sampleAlert], some "evidence.db", none⟩).items) := by
  have h := c4_roundtrip_persistence [sampleAlert, sampleB]
    ⟨[sampleAlert], some "evidence.db", none⟩ [sampleB] EvidenceKind.alert "alert-1" rfl
  exact ⟨h.1, h.2.2.1, h.2.2.2.2⟩

/-- C6: publishing in create mode leaves the Evidence Store unchanged
(clearing is a separate explicit operation); only in append mode does the
publisher clear from the store exactly the staged items matching the
given investigation after attaching them. -/
theorem c6_publisher_frame (s : List EvidenceItem) (tenant inv : String) :
    (publishCreate s tenant).store = s
    ∧ (publishAppend s inv).store
        = s.filter (fun i => decide (¬ i.investigation_id = some inv))
    ∧ (∀ i ∈ (publishAppend s inv).store, ¬ i.investigation_id = some inv)
    ∧ (∀ i ∈ s, ¬ i.investigation_id = some inv → i ∈ (publishAppend s inv).store)
    ∧ (∀ i ∈ (publishAppend s inv).attached, i.investigation_id = some inv) := by
  refine ⟨rfl, rfl, ?_, ?_, ?_⟩
  · intro i hi
    have := (List.mem_filter.mp hi).2
    simpa using this
  · intro i hi hni
    exact List.mem_filter.mpr ⟨hi, by simpa using hni⟩
  · intro i hi
    have := (List.mem_filter.mp hi).2
    simpa using this

/-- Witness for C6: create leaves a concrete two-item store untouched;
append keeps the item not assigned to the investigation. -/
theorem c6_publisher_frame_witness :
    (publishCreate [sampleAlert, sampleInv] "tenant-1").store = [sampleAlert, sampleInv]
    ∧ sampleAlert ∈ (publishAppend [sampleAlert, sampleInv] "inv-9").store := by
  have h := c6_publisher_frame [sampleAlert, sampleInv] "tenant-1" "inv-9"
  exact ⟨h.1, h.2.2.2.1 sampleAlert (by simp) (by simp [sampleAlert])⟩

/- Severity bucketing (Result Tagger). -/

/-- Modelled from the spec: severity bucketing maps a severity score in
`[0,1]` to a label via inclusive-lower-bound thresholds
`[0,0.2) Informational, [0.2,0.4) Low, [0.4,0.6) Medium, [0.6,0.8) High,
[0.8,1] Critical` (spec section 4.2; examples in
`src/docs/jupyter/alerts.md`).  Scores are modelled as rationals. -/
def bucket (s : ℚ) : String :=
  if s < 2/10 then "Informational"
  else if s < 4/10 then "Low"
  else if s < 6/10 then "Medium"
  else if s < 8/10 then "High"
  else "Critical"

/-- The fixed ordered label set of the severity bucketing transform. -/
def severityLabels : List String :=
  ["Informational", "Low", "Medium", "High", "Critical"]

/-- Floor of a rational, computed on its numerator and denominator. -/
def ratFloorZ (q : ℚ) : ℤ := Int.fdiv q.num (q.den : ℤ)

/-- Modelled from the spec: rounding of the severity score to one decimal
(the `taegis_magic.severity` column of `severity_rounded_and_category`
in `src/docs/jupyter/alerts.md`). -/
def roundTenth (q : ℚ) : ℚ := ((ratFloorZ (q * 10 + 1/2) : ℤ) : ℚ) / 10

/-- C3: for every severity score in `[0,1]` the bucketing transform
returns exactly one of the five fixed labels, chosen by inclusive
lower-bound thresholds; `bucket 0.2 = "Low"`,
`bucket 0.19999 = "Informational"`, and the documented input sequence
`[0.1, 0.2, 0.5, 0.4, 0.2]` yields
`["Informational", "Low", "Medium", "Medium", "Low"]`. -/
theorem c3_severity_bucketing :
    (∀ s : ℚ, 0 ≤ s → s ≤ 1 → bucket s ∈ severityLabels)
    ∧ (∀ s : ℚ, 0 ≤ s → s < 2/10 → bucket s = "Informational")
    ∧ (∀ s : ℚ, 2/10 ≤ s → s < 4/10 → bucket s = "Low")
    ∧ (∀ s : ℚ, 4/10 ≤ s → s < 6/10 → bucket s = "Medium")
    ∧ (∀ s : ℚ, 6/10 ≤ s → s < 8/10 → bucket s = "High")
    ∧ (∀ s : ℚ, 8/10 ≤ s → s ≤ 1 → bucket s = "Critical")
    ∧ bucket (2/10) = "Low"
    ∧ bucket (19999/100000) = "Informational"
    ∧ [(1 : ℚ)/10, 2/10, 5/10, 4/10, 2/10].map bucket
        = ["Informational", "Low", "Medium", "Medium", "Low"] := by
  refine ⟨?_, ?_, ?_, ?_, ?_, ?_, ?_, ?_, ?_⟩
  · intro s h0 h1
    unfold bucket
    split
    · simp [severityLabels]
    · split
      · simp [severityLabels]
      · split
        · simp [severityLabels]
        · split <;> simp [severityLabels]
  · intro s h0 hlt
    simp [bucket, hlt]
  · intro s hge hlt
    have h1 : ¬ s < 2/10 := by linarith
    simp [bucket, h1, hlt]
  · intro s hge hlt
    have h1 : ¬ s < 2/10 := by linarith
    have h2 : ¬ s < 4/10 := by linarith
    simp [bucket, h1, h2, hlt]
  · intro s hge hlt
    have h1 : ¬ s < 2/10 := by linarith
    have h2 : ¬ s < 4/10 := by linarith
    have h3 : ¬ s < 6/10 := by linarith
    simp [bucket, h1, h2, h3, hlt]
  · intro s hge hle
    have h1 : ¬ s < 2/10 := by linarith
    have h2 : ¬ s < 4/10 := by linarith
    have h3 : ¬ s < 6/10 := by linarith
    have h4 : ¬ s < 8/10 := by linarith
    simp [bucket, h1, h2, h3, h4]
  · norm_num [bucket]
  · norm_num [bucket]
  · norm_num [bucket]

/-- Witness for C3: the theorem applied at the score `1/2`. -/
theorem c3_severity_bucketing_witness :
    bucket (1/2) ∈ severityLabels ∧ bucket (1/2) = "Medium" := by
  refine ⟨c3_severity_bucketing.1 (1/2) (by norm_num) (by norm_num), ?_⟩
  exact c3_severity_bucketing.2.2.2.1 (1/2) (by norm_num) (by norm_num)

/- Rows and the Result Tagger transforms. -/

/-- Modelled from the spec: the fixed enum of logical entity types
(`@ip`, `@domain`, `@hash`, `@user`, `@host`; spec section 4.2,
`src/unnamed/part_004`). -/
inductive EntityType
  | ip
  | domain
  | hash
  | user
  | host
deriving DecidableEq

/-- The logical-type column label of an entity type. -/
def EntityType.atName : EntityType → String
  | .ip => "@ip"
  | .domain => "@domain"
  | .hash => "@hash"
  | .user => "@user"
  | .host => "@host"

/-- Modelled from the spec: a typed entity reference extracted from the
nested `entities.entities` field of an alert row. -/
structure Entity where
  etype : EntityType
  evalue : String
deriving DecidableEq

/-- A cell value of a SearchResult row: rows are schema-free ordered
mappings from column names to values (spec section 9). -/
inductive Value
  | str (s : String)
  | int (n : Int)
  | num (q : ℚ)
  | strList (l : List String)
  | entities (es : List Entity)
deriving DecidableEq

/-- A SearchResult row: an ordered mapping from column names to values. -/
abbrev Row : Type := List (String × Value)

/-- Column lookup in a row (first occurrence wins). -/
def getCol (r : Row) (c : String) : Option Value :=
  (r.find? (fun p => decide (p.1 = c))).map (fun p => p.2)

/-- The known epoch-time columns of an alert row
(`src/docs/jupyter/alerts.md`). -/
def alertTimestampColumns : List String :=
  ["metadata.created_at.seconds", "metadata.inserted_at.seconds",
   "metadata.began_at.seconds", "metadata.ended_at.seconds"]

/-- Modelled from the spec: the columns added by timestamp conversion;
for each known epoch column present with an integer value, a sibling
column named with `taegis_magic.` prepended holds the formatted string;
a missing source column is skipped (spec sections 4.2 and 7). -/
def tsAdditions (fmt : Int → String) : List String → Row → Row
  | [], _ => []
  | c :: cols, row =>
    match getCol row c with
    | some (Value.int n) =>
      ("taegis_magic." ++ c, Value.str (fmt n)) :: tsAdditions fmt cols row
    | _ => tsAdditions fmt cols row

/-- Modelled from the spec: `convert_alert_timestamps` adds the converted
timestamp columns and removes nothing. -/
def convert_alert_timestamps (fmt : Int → String) (row : Row) : Row :=
  row ++ tsAdditions fmt alertTimestampColumns row

/-- Modelled from the spec: the two columns added by
`severity_rounded_and_category` when `metadata.severity` is present
(`src/docs/jupyter/alerts.md`). -/
def severityAdditions (row : Row) : Row :=
  match getCol row "metadata.severity" with
  | some (Value.num q) =>
    [("taegis_magic.severity", Value.num (roundTenth q)),
     ("taegis_magic.severity_category", Value.str (bucket q))]
  | _ => []

/-- Modelled from the spec: `severity_rounded_and_category` appends the
rounded severity and its category label. -/
def severity_rounded_and_category (row : Row) : Row :=
  row ++ severityAdditions row

/-- The two columns tagged onto each normalized entity row
(`src/unnamed/part_004`). -/
def entityAdditions (e : Entity) : Row :=
  [("taegis_magic.entities.field", Value.str e.etype.atName),
   ("taegis_magic.entities.value", Value.str e.evalue)]

/-- Modelled from the spec: `normalize_entities` reads the nested
`entities.entities` field and emits one row per (original row, entity)
pair, tagged with `taegis_magic.entities.field` and
`taegis_magic.entities.value`; a row without that field passes through
unchanged (spec sections 4.2 and 7). -/
def normalize_entities (row : Row) : List Row :=
  match getCol row "entities.entities" with
  | some (Value.entities es) => es.map (fun e => row ++ entityAdditions e)
  | _ => [row]

def entityTypeList : List EntityType := [.ip, .domain, .hash, .user, .host]

/-- Rows sharing the grouping key (the originating alert id) of a row. -/
def groupOf (rows : List Row) (r : Row) : List Row :=
  rows.filter (fun r2 => decide (getCol r2 "id" = getCol r "id"))

/-- The normalized-entity values of a given logical type within a group. -/
def valuesOfType (g : List Row) (t : EntityType) : List String :=
  g.filterMap (fun r2 =>
    match getCol r2 "taegis_magic.entities.field",
        getCol r2 "taegis_magic.entities.value" with
    | some (Value.str f), some (Value.str v) =>
      if f = t.atName then some v else none
    | _, _ => none)

/-- Modelled from the spec: the co-occurrence columns added by
`relate_entities` — one column per other entity type, named after that
type, holding the list of co-occurring values of the same group
(spec section 4.2, `src/unnamed/part_004`). -/
def relateAdditions (rows : List Row) (r : Row) : Row :=
  match getCol r "taegis_magic.entities.field" with
  | some (Value.str f) =>
    (entityTypeList.filter (fun t => decide (¬ t.atName = f))).map
      (fun t => (t.atName, Value.strList (valuesOfType (groupOf rows r) t)))
  | _ => []

/-- Modelled from the spec: `relate_entities` appends the co-occurrence
columns to every row of the input. -/
def relate_entities (rows : List Row) : List Row :=
  rows.map (fun r => r ++ relateAdditions rows r)

/-- The four independently configurable lookback windows of the Context
Query Generator (spec section 4.4, `src/unnamed/part_004`). -/
structure Timeframes where
  open_alerts : String
  resolved_alerts : String
  investigations : String
  events : String

/-- Modelled from the spec: default lookback windows apply if unset. -/
def defaultTimeframes : Timeframes := ⟨"-1d", "-30d", "-30d", "-7d"⟩

/-- The four target categories of the Context Query Generator. -/
inductive TargetCategory
  | open_alerts
  | resolved_alerts
  | investigations
  | events
deriving DecidableEq

/- Entity escaping and the Context Query Generator. -/

/-- Modelled from the spec: the query-language metacharacters that must
be escaped before interpolating an entity value into a query template
(regex metacharacters and the quote character; spec section 4.4,
`src/docs/jupyter/audits.md` template filters). -/
def qlMetachars : List Char :=
  ['.', '^', '$', '*', '+', '?', '(', ')', '[', ']',
   Char.ofNat 123, Char.ofNat 125, '|', '\\', '\'']

/-- Escape one character: metacharacters get a leading backslash. -/
def escapeChar (c : Char) : List Char :=
  if c ∈ qlMetachars then ['\\', c] else [c]

/-- Modelled from the spec: regex- and quote-escaping of an entity value
before interpolation into the query template. -/
def escapeValue : List Char → List Char
  | [] => []
  | c :: rest => escapeChar c ++ escapeValue rest

def escapeString (v : String) : String := ⟨escapeValue v.data⟩

/-- The single-quote delimiter of the query template. -/
def quoteS : String := "'"

/-- Modelled from the spec: the match condition interpolating the escaped
entity value, in the `MATCHES_REGEX` form of the rendered examples of
`src/docs/jupyter/audits.md`. -/
def matchClause (field v : String) : String :=
  field ++ " MATCHES_REGEX " ++ quoteS ++ escapeString v ++ quoteS

def catSource : TargetCategory → String
  | .events => "process"
  | _ => "alert"

def catCondition : TargetCategory → String
  | .open_alerts => " AND status = 'OPEN'"
  | .resolved_alerts => " AND status != 'OPEN'"
  | .investigations => " AND investigation_ids IS NOT NULL"
  | .events => ""

/-- Modelled from the spec: a generated context query — the entity's
match clause, the category's extra condition and the configured lookback
window (spec section 4.4). -/
def renderQuery (cat : TargetCategory) (field v tf : String) : String :=
  "FROM " ++ catSource cat ++ " WHERE " ++ matchClause field v
    ++ catCondition cat ++ " EARLIEST=" ++ tf

/-- Picks the lookback window of a target category. -/
def tfFor (tfs : Timeframes) : TargetCategory → String
  | .open_alerts => tfs.open_alerts
  | .resolved_alerts => tfs.resolved_alerts
  | .investigations => tfs.investigations
  | .events => tfs.events

/-- Modelled from the spec: the four query columns added by
`generate_context_queries` when the normalized entity columns are
present (`src/unnamed/part_004`). -/
def contextAdditions (tfs : Timeframes) (row : Row) : Row :=
  match getCol row "taegis_magic.entities.field",
      getCol row "taegis_magic.entities.value" with
  | some (Value.str f), some (Value.str v) =>
    [("taegis_magic.open_alerts_query",
      Value.str (renderQuery .open_alerts f v tfs.open_alerts)),
     ("taegis_magic.resolved_alerts_query",
      Value.str (renderQuery .resolved_alerts f v tfs.resolved_alerts)),
     ("taegis_magic.investigations_query",
      Value.str (renderQuery .investigations f v tfs.investigations)),
     ("taegis_magic.events_query",
      Value.str (renderQuery .events f v tfs.events))]
  | _, _ => []

/-- Modelled from the spec: `generate_context_queries` appends the four
context query columns; rows without the normalized entity columns pass
through unchanged. -/
def generate_context_queries (tfs : Timeframes) (row : Row) : Row :=
  row ++ contextAdditions tfs row

/-- Whether the first list leads the second (list-prefix test). -/
def leadsWith : List Char → List Char → Bool
  | [], _ => true
  | _ :: _, [] => false
  | a :: as, b :: bs => decide (a = b) && leadsWith as bs

/-- Whether a column name carries the `taegis_magic.` name space of the
derived columns. -/
def magicTagged (c : String) : Bool :=
  leadsWith "taegis_magic.".data c.data

/- Parsing a rendered match condition back. -/

/-- Skip to just after the first single quote. -/
def dropToQuote : List Char → Option (List Char)
  | [] => none
  | c :: rest => if c = '\'' then some rest else dropToQuote rest

/-- Read a quoted regex body up to its closing quote, honouring
backslash escapes; returns the body and the remainder. -/
def readQuoted : List Char → Option (List Char × List Char)
  | [] => none
  | c :: rest =>
    if c = '\\' then
      match rest with
      | [] => none
      | d :: rest2 => (readQuoted rest2).map (fun pr => ('\\' :: d :: pr.1, pr.2))
    else if c = '\'' then some ([], rest)
    else (readQuoted rest).map (fun pr => (c :: pr.1, pr.2))

/-- Parse a regex body as a match condition: a backslash escape is a
literal character, an unescaped dot is a wildcard, any other unescaped
metacharacter is an operator this literal-match parser rejects.  The
result is a token list: `some c` is a literal, `none` the wildcard. -/
def parsePattern : List Char → Option (List (Option Char))
  | [] => some []
  | c :: rest =>
    if c = '\\' then
      match rest with
      | [] => none
      | d :: rest2 => (parsePattern rest2).map (fun p => some d :: p)
    else if c = '.' then (parsePattern rest).map (fun p => none :: p)
    else if c ∈ qlMetachars then none
    else (parsePattern rest).map (fun p => some c :: p)

/-- Matching semantics of a parsed pattern: literals match themselves,
the wildcard matches any single character. -/
def patMatches : List (Option Char) → List Char → Bool
  | [], [] => true
  | some c :: p, d :: s => decide (c = d) && patMatches p s
  | none :: p, _ :: s => patMatches p s
  | _, _ => false

/-- Extract the quoted regex body of a rendered query and parse it back
as a match condition. -/
def parseMatchCondition (q : String) : Option (List (Option Char)) :=
  match dropToQuote q.data with
  | none => none
  | some rest =>
    match readQuoted rest with
    | none => none
    | some pr => parsePattern pr.1

/- Helper lemmas about rows and additions. -/

theorem getCol_append_left {r : Row} {c : String} {v : Value} (t : Row)
    (h : getCol r c = some v) : getCol (r ++ t) c = some v := by
  unfold getCol at h ⊢
  cases hf : r.find? (fun p => decide (p.1 = c)) with
  | none => rw [hf] at h; simp at h
  | some p =>
    rw [hf] at h
    simp [List.find?_append, hf, h]

theorem getCol_append_of_keys {t : Row} {c : String} (r : Row)
    (h : ∀ p ∈ t, p.1 ≠ c) : getCol (r ++ t) c = getCol r c := by
  unfold getCol
  have ht : t.find? (fun p => decide (p.1 = c)) = none :=
    List.find?_eq_none.mpr (fun p hp => by simpa using h p hp)
  rw [List.find?_append]
  simp only [ht]
  cases r.find? (fun p => decide (p.1 = c)) <;> rfl

theorem getCol_append_cases {r t : Row} {c : String}
    (h : (getCol (r ++ t) c).isSome) :
    (getCol r c).isSome ∨ ∃ p ∈ t, p.1 = c := by
  unfold getCol at h ⊢
  rw [List.find?_append] at h
  cases hf : r.find? (fun p => decide (p.1 = c)) with
  | some p => left; rfl
  | none =>
    rw [hf] at h
    cases ht : t.find? (fun p => decide (p.1 = c)) with
    | none => rw [ht] at h; simp at h
    | some p =>
      right
      exact ⟨p, List.mem_of_find?_eq_some ht, by simpa using List.find?_some ht⟩

theorem forall2_map_self {α β : Type} (l : List α) (f : α → β) (P : α → β → Prop)
    (h : ∀ a ∈ l, P a (f a)) : List.Forall₂ P l (l.map f) := by
  induction l with
  | nil => simp
  | cons a t ih =>
    exact List.Forall₂.cons (h a (by simp)) (ih fun x hx => h x (by simp [hx]))

theorem leadsWith_append (p t : List Char) : leadsWith p (p ++ t) = true := by
  induction p with
  | nil => rfl
  | cons a as ih => simp [leadsWith, ih]

theorem magicTagged_append (t : String) :
    magicTagged ("taegis_magic." ++ t) = true := by
  unfold magicTagged
  rw [String.data_append]
  exact leadsWith_append _ _

theorem magic_append_inj {a b : String}
    (h : "taegis_magic." ++ a = "taegis_magic." ++ b) : a = b := by
  have hd := congrArg String.data h
  simp only [String.data_append] at hd
  exact String.ext (by simpa using hd)

theorem tsAdditions_mem {fmt : Int → String} {cols : List String} {row : Row}
    {p : String × Value} (h : p ∈ tsAdditions fmt cols row) :
    ∃ d ∈ cols, p.1 = "taegis_magic." ++ d ∧ ∃ n, getCol row d = some (Value.int n) := by
  induction cols with
  | nil => simp [tsAdditions] at h
  | cons d rest ih =>
    simp only [tsAdditions] at h
    cases hg : getCol row d with
    | none =>
      rw [hg] at h
      rcases ih h with ⟨e, he, hk, n, hn⟩
      exact ⟨e, by simp [he], hk, n, hn⟩
    | some v =>
      rw [hg] at h
      cases v with
      | int n =>
        rcases List.mem_cons.mp h with rfl | htail
        · exact ⟨d, by simp, rfl, n, hg⟩
        · rcases ih htail with ⟨e, he, hk, m, hm⟩
          exact ⟨e, by simp [he], hk, m, hm⟩
      | str s =>
        rcases ih h with ⟨e, he, hk, m, hm⟩
        exact ⟨e, by simp [he], hk, m, hm⟩
      | num q =>
        rcases ih h with ⟨e, he, hk, m, hm⟩
        exact ⟨e, by simp [he], hk, m, hm⟩
      | strList l =>
        rcases ih h with ⟨e, he, hk, m, hm⟩
        exact ⟨e, by simp [he], hk, m, hm⟩
      | entities es =>
        rcases ih h with ⟨e, he, hk, m, hm⟩
        exact ⟨e, by simp [he], hk, m, hm⟩

theorem tsAdditions_skip {fmt : Int → String} {row : Row} {c : String}
    (cols : List String) (h : getCol row c = none) :
    tsAdditions fmt (cols.filter (fun d => !decide (d = c))) row
      = tsAdditions fmt cols row := by
  induction cols with
  | nil => rfl
  | cons d rest ih =>
    by_cases hd : d = c
    · subst hd
      simp [List.filter_cons, tsAdditions, h, ih]
    · rw [List.filter_cons, if_pos (show (!decide (d = c)) = true by simp [hd])]
      cases hg : getCol row d with
      | none => simp only [tsAdditions, hg, ih]
      | some v => cases v <;> simp only [tsAdditions, hg, ih]

theorem severityAdditions_mem {row : Row} {p : String × Value}
    (h : p ∈ severityAdditions row) : magicTagged p.1 = true := by
  unfold severityAdditions at h
  cases hg : getCol row "metadata.severity" with
  | none => rw [hg] at h; simp at h
  | some v =>
    rw [hg] at h
    cases v <;> simp at h
    rcases h with h | h
    · rw [h]; show magicTagged "taegis_magic.severity" = true; decide
    · rw [h]; show magicTagged "taegis_magic.severity_category" = true; decide

theorem entityAdditions_mem {e : Entity} {p : String × Value}
    (h : p ∈ entityAdditions e) : magicTagged p.1 = true := by
  unfold entityAdditions at h
  simp at h
  rcases h with h | h
  · rw [h]; show magicTagged "taegis_magic.entities.field" = true; decide
  · rw [h]; show magicTagged "taegis_magic.entities.value" = true; decide

theorem contextAdditions_mem {tfs : Timeframes} {row : Row} {p : String × Value}
    (h : p ∈ contextAdditions tfs row) : magicTagged p.1 = true := by
  unfold contextAdditions at h
  cases hg : getCol row "taegis_magic.entities.field" with
  | none => rw [hg] at h; simp at h
  | some v =>
    rw [hg] at h
    cases v <;> try simp at h
    case str f =>
      cases hg2 : getCol row "taegis_magic.entities.value" with
      | none => rw [hg2] at h; simp at h
      | some w =>
        rw [hg2] at h
        cases w <;> simp at h
        rcases h with h | h | h | h
        · rw [h]; show magicTagged "taegis_magic.open_alerts_query" = true; decide
        · rw [h]; show magicTagged "taegis_magic.resolved_alerts_query" = true; decide
        · rw [h]; show magicTagged "taegis_magic.investigations_query" = true; decide
        · rw [h]; show magicTagged "taegis_magic.events_query" = true; decide

/-- C7: each Result Tagger transform (timestamp conversion, entity
normalization, relation building, severity bucketing) is non-destructive:
every column present in an input row is present in the corresponding
output row(s) with its value unchanged — transforms only add new columns
(and, for normalization, new rows). -/
theorem c7_transforms_nondestructive :
    (∀ (fmt : Int → String) (row : Row) (c : String) (v : Value),
        getCol row c = some v → getCol (convert_alert_timestamps fmt row) c = some v)
    ∧ (∀ row : Row, ∀ r ∈ normalize_entities row, ∀ (c : String) (v : Value),
        getCol row c = some v → getCol r c = some v)
    ∧ (∀ rows : List Row,
        List.Forall₂ (fun r r2 => ∀ (c : String) (v : Value),
          getCol r c = some v → getCol r2 c = some v) rows (relate_entities rows))
    ∧ (∀ (row : Row) (c : String) (v : Value),
        getCol row c = some v → getCol (severity_rounded_and_category row) c = some v) := by
  refine ⟨?_, ?_, ?_, ?_⟩
  · intro fmt row c v h
    exact getCol_append_left _ h
  · intro row r hr c v h
    unfold normalize_entities at hr
    cases hg : getCol row "entities.entities" with
    | none =>
      rw [hg] at hr
      simp at hr
      rw [hr]
      exact h
    | some w =>
      rw [hg] at hr
      cases w <;> simp at hr <;> try (rw [hr]; exact h)
      case entities es =>
        rcases hr with ⟨e, he, rfl⟩
        exact getCol_append_left _ h
  · intro rows
    unfold relate_entities
    exact forall2_map_self rows _ _ (fun r hr c v h => getCol_append_left _ h)
  · intro row c v h
    exact getCol_append_left _ h

/-- Witness for C7: the timestamp conversion keeps the `id` column of a
concrete alert row unchanged. -/
theorem c7_transforms_nondestructive_witness :
    getCol (convert_alert_timestamps (fun _ => "ts")
        [("id", Value.str "alert-1"), ("metadata.created_at.seconds", Value.int 7)]) "id"
      = some (Value.str "alert-1") :=
  c7_transforms_nondestructive.1 (fun _ => "ts")
    [("id", Value.str "alert-1"), ("metadata.created_at.seconds", Value.int 7)]
    "id" (Value.str "alert-1") rfl

/-- C8: when an expected source column is missing, each Result Tagger
transform — timestamp conversion, entity normalization, severity
bucketing, context query generation, and relation building (which
requires the normalized entity columns) — returns normally (the
functions are total), leaves the corresponding derived columns absent,
and behaves as if only the present columns had been processed. -/
theorem c8_missing_column_skipped :
    (∀ (fmt : Int → String) (row : Row) (c : String), getCol row c = none →
        (∀ p ∈ tsAdditions fmt alertTimestampColumns row, p.1 ≠ "taegis_magic." ++ c)
        ∧ (getCol row ("taegis_magic." ++ c) = none →
            getCol (convert_alert_timestamps fmt row) ("taegis_magic." ++ c) = none)
        ∧ tsAdditions fmt (alertTimestampColumns.filter (fun d => !decide (d = c))) row
            = tsAdditions fmt alertTimestampColumns row)
    ∧ (∀ row : Row, getCol row "entities.entities" = none →
        normalize_entities row = [row])
    ∧ (∀ row : Row, getCol row "metadata.severity" = none →
        severity_rounded_and_category row = row)
    ∧ (∀ (tfs : Timeframes) (row : Row), getCol row "taegis_magic.entities.field" = none →
        generate_context_queries tfs row = row)
    ∧ (∀ (rows : List Row) (r : Row), getCol r "taegis_magic.entities.field" = none →
        relateAdditions rows r = [] ∧ r ++ relateAdditions rows r = r) := by
  refine ⟨?_, ?_, ?_, ?_, ?_⟩
  · intro fmt row c hc
    have hkeys : ∀ p ∈ tsAdditions fmt alertTimestampColumns row,
        p.1 ≠ "taegis_magic." ++ c := by
      intro p hp he
      rcases tsAdditions_mem hp with ⟨d, hd, hk, n, hn⟩
      have : d = c := magic_append_inj (hk.symm.trans he)
      rw [this] at hn
      rw [hc] at hn
      exact Option.noConfusion hn
    refine ⟨hkeys, ?_, tsAdditions_skip _ hc⟩
    intro hm
    unfold convert_alert_timestamps
    rw [getCol_append_of_keys row hkeys]
    exact hm
  · intro row hg
    unfold normalize_entities
    rw [hg]
  · intro row hg
    unfold severity_rounded_and_category severityAdditions
    rw [hg]
    simp
  · intro tfs row hg
    unfold generate_context_queries contextAdditions
    rw [hg]
    simp
  · intro rows r hg
    have hz : relateAdditions rows r = [] := by
      unfold relateAdditions
      rw [hg]
    exact ⟨hz, by rw [hz]; simp⟩

/-- Witness for C8: a row without any source column passes through the
transforms unchanged (including relation building, whose co-occurrence
columns stay absent), and the timestamp transform processes only the
present columns. -/
theorem c8_missing_column_skipped_witness :
    severity_rounded_and_category [("id", Value.str "x")] = [("id", Value.str "x")]
    ∧ normalize_entities [("id", Value.str "x")] = [[("id", Value.str "x")]]
    ∧ relateAdditions [[("id", Value.str "x")]] [("id", Value.str "x")] = []
    ∧ tsAdditions (fun _ => "ts")
        (alertTimestampColumns.filter (fun d => !decide (d = "metadata.created_at.seconds")))
        [("id", Value.str "x")]
      = tsAdditions (fun _ => "ts") alertTimestampColumns [("id", Value.str "x")] :=
  ⟨c8_missing_column_skipped.2.2.1 [("id", Value.str "x")] rfl,
   c8_missing_column_skipped.2.1 [("id", Value.str "x")] rfl,
   (c8_missing_column_skipped.2.2.2.2 [[("id", Value.str "x")]] [("id", Value.str "x")] rfl).1,
   (c8_missing_column_skipped.1 (fun _ => "ts") [("id", Value.str "x")]
      "metadata.created_at.seconds" rfl).2.2⟩

/-- C10: every derived column added by timestamp conversion, entity
normalization, severity bucketing and context query generation is written
under a name carrying the `taegis_magic.` name space, so a derived column
never collides with or overwrites an existing API-provided column. -/
theorem c10_derived_columns_prefixed :
    (∀ (fmt : Int → String) (row : Row) (c : String),
        (getCol (convert_alert_timestamps fmt row) c).isSome →
          (getCol row c).isSome ∨ magicTagged c = true)
    ∧ (∀ row : Row, ∀ r ∈ normalize_entities row, ∀ c : String,
        (getCol r c).isSome → (getCol row c).isSome ∨ magicTagged c = true)
    ∧ (∀ (row : Row) (c : String),
        (getCol (severity_rounded_and_category row) c).isSome →
          (getCol row c).isSome ∨ magicTagged c = true)
    ∧ (∀ (tfs : Timeframes) (row : Row) (c : String),
        (getCol (generate_context_queries tfs row) c).isSome →
          (getCol row c).isSome ∨ magicTagged c = true)
    ∧ (∀ (row : Row) (c : String), magicTagged c = false →
        (∀ fmt : Int → String, getCol (convert_alert_timestamps fmt row) c = getCol row c)
        ∧ (∀ r ∈ normalize_entities row, getCol r c = getCol row c)
        ∧ getCol (severity_rounded_and_category row) c = getCol row c
        ∧ (∀ tfs : Timeframes, getCol (generate_context_queries tfs row) c = getCol row c)) := by
  have hts : ∀ (fmt : Int → String) (row : Row) (p : String × Value),
      p ∈ tsAdditions fmt alertTimestampColumns row → magicTagged p.1 = true := by
    intro fmt row p hp
    rcases tsAdditions_mem hp with ⟨d, hd, hk, n, hn⟩
    rw [hk]
    exact magicTagged_append d
  refine ⟨?_, ?_, ?_, ?_, ?_⟩
  · intro fmt row c h
    rcases getCol_append_cases h with h1 | ⟨p, hp, hpc⟩
    · exact Or.inl h1
    · exact Or.inr (hpc ▸ hts fmt row p hp)
  · intro row r hr c h
    unfold normalize_entities at hr
    cases hg : getCol row "entities.entities" with
    | none =>
      rw [hg] at hr
      simp at hr
      rw [hr] at h
      exact Or.inl h
    | some w =>
      rw [hg] at hr
      cases w <;> simp at hr <;> try (rw [hr] at h; exact Or.inl h)
      case entities es =>
        rcases hr with ⟨e, he, rfl⟩
        rcases getCol_append_cases h with h1 | ⟨p, hp, hpc⟩
        · exact Or.inl h1
        · exact Or.inr (hpc ▸ entityAdditions_mem hp)
  · intro row c h
    rcases getCol_append_cases h with h1 | ⟨p, hp, hpc⟩
    · exact Or.inl h1
    · exact Or.inr (hpc ▸ severityAdditions_mem hp)
  · intro tfs row c h
    rcases getCol_append_cases h with h1 | ⟨p, hp, hpc⟩
    · exact Or.inl h1
    · exact Or.inr (hpc ▸ contextAdditions_mem hp)
  · intro row c hc
    have hne : ∀ {t : Row}, (∀ p ∈ t, magicTagged p.1 = true) → ∀ p ∈ t, p.1 ≠ c := by
      intro t hall p hp he
      have hm := hall p hp
      rw [he, hc] at hm
      exact Bool.noConfusion hm
    refine ⟨?_, ?_, ?_, ?_⟩
    · intro fmt
      exact getCol_append_of_keys row (hne (hts fmt row))
    · intro r hr
      unfold normalize_entities at hr
      cases hg : getCol row "entities.entities" with
      | none =>
        rw [hg] at hr
        simp at hr
        rw [hr]
      | some w =>
        rw [hg] at hr
        cases w <;> simp at hr <;> try rw [hr]
        case entities es =>
          rcases hr with ⟨e, he, rfl⟩
          exact getCol_append_of_keys row (hne (fun p hp => entityAdditions_mem hp))
    · exact getCol_append_of_keys row (hne (fun p hp => severityAdditions_mem hp))
    · intro tfs
      exact getCol_append_of_keys row (hne (fun p hp => contextAdditions_mem hp))

/-- Witness for C10: on a concrete row the column added by timestamp
conversion carries the `taegis_magic.` name space, and an unprefixed
column is read back unchanged. -/
theorem c10_derived_columns_prefixed_witness :
    ((getCol [("id", Value.str "alert-1"), ("metadata.created_at.seconds", Value.int 7)]
        "taegis_magic.metadata.created_at.seconds").isSome
      ∨ magicTagged "taegis_magic.metadata.created_at.seconds" = true)
    ∧ getCol (convert_alert_timestamps (fun _ => "ts")
        [("id", Value.str "alert-1"), ("metadata.created_at.seconds", Value.int 7)]) "id"
      = getCol [("id", Value.str "alert-1"), ("metadata.created_at.seconds", Value.int 7)] "id" := by
  refine ⟨?_, ?_⟩
  · exact c10_derived_columns_prefixed.1 (fun _ => "ts")
      [("id", Value.str "alert-1"), ("metadata.created_at.seconds", Value.int 7)]
      "taegis_magic.metadata.created_at.seconds" (by decide)
  · exact (c10_derived_columns_prefixed.2.2.2.2
      [("id", Value.str "alert-1"), ("metadata.created_at.seconds", Value.int 7)]
      "id" (by decide)).1 (fun _ => "ts")

/- Lemmas on escaping and parsing back the match condition. -/

theorem backslash_mem : ('\\' : Char) ∈ qlMetachars := by decide

theorem quote_mem : ('\'' : Char) ∈ qlMetachars := by decide

theorem dot_mem : ('.' : Char) ∈ qlMetachars := by decide

theorem escapeString_data (v : String) :
    (escapeString v).data = escapeValue v.data := rfl

theorem quoteS_data : quoteS.data = ['\''] := rfl

theorem dropToQuote_append (l rest : List Char) :
    '\'' ∉ l → dropToQuote (l ++ '\'' :: rest) = some rest := by
  induction l with
  | nil => intro h; simp [dropToQuote]
  | cons a t ih =>
    intro h
    have ha : ¬ a = '\'' := fun e => h (by simp [e])
    simp only [List.cons_append, dropToQuote, if_neg ha]
    exact ih (fun hm => h (by simp [hm]))

theorem readQuoted_backslash (d : Char) (rest : List Char) :
    readQuoted ('\\' :: d :: rest)
      = (readQuoted rest).map (fun pr => ('\\' :: d :: pr.1, pr.2)) := rfl

theorem readQuoted_quote (rest : List Char) :
    readQuoted ('\'' :: rest) = some ([], rest) := by
  cases rest with
  | nil =>
    rw [readQuoted.eq_2]
    rw [if_neg (show ¬('\'' = '\\') by decide), if_pos rfl]
  | cons a t =>
    rw [readQuoted.eq_3]
    rw [if_neg (show ¬('\'' = '\\') by decide), if_pos rfl]

theorem readQuoted_other {c : Char} (h1 : ¬ c = '\\') (h2 : ¬ c = '\'')
    (rest : List Char) :
    readQuoted (c :: rest)
      = (readQuoted rest).map (fun pr => (c :: pr.1, pr.2)) := by
  rw [readQuoted.eq_def]
  simp only [if_neg h1, if_neg h2]

theorem parsePattern_backslash (d : Char) (rest : List Char) :
    parsePattern ('\\' :: d :: rest)
      = (parsePattern rest).map (fun p => some d :: p) := rfl

theorem parsePattern_other {c : Char} (h1 : ¬ c = '\\') (h3 : ¬ c = '.')
    (hm : c ∉ qlMetachars) (rest : List Char) :
    parsePattern (c :: rest)
      = (parsePattern rest).map (fun p => some c :: p) := by
  rw [parsePattern.eq_def]
  simp only [if_neg h1, if_neg h3, if_neg hm]

theorem readQuoted_escaped (v tail : List Char) :
    readQuoted (escapeValue v ++ '\'' :: tail) = some (escapeValue v, tail) := by
  induction v with
  | nil =>
    simp only [escapeValue, List.nil_append]
    exact readQuoted_quote tail
  | cons c t ih =>
    by_cases hm : c ∈ qlMetachars
    · simp only [escapeValue, escapeChar, if_pos hm, List.cons_append, List.nil_append]
      rw [readQuoted_backslash, ih]
      rfl
    · have h1 : ¬ c = '\\' := fun e => hm (by rw [e]; exact backslash_mem)
      have h2 : ¬ c = '\'' := fun e => hm (by rw [e]; exact quote_mem)
      simp only [escapeValue, escapeChar, if_neg hm, List.cons_append, List.nil_append]
      rw [readQuoted_other h1 h2, ih]
      rfl

theorem parsePattern_escaped (v : List Char) :
    parsePattern (escapeValue v) = some (v.map some) := by
  induction v with
  | nil => rfl
  | cons c t ih =>
    by_cases hm : c ∈ qlMetachars
    · simp only [escapeValue, escapeChar, if_pos hm, List.cons_append,
        List.nil_append, List.map_cons]
      rw [parsePattern_backslash, ih]
      rfl
    · have h1 : ¬ c = '\\' := fun e => hm (by rw [e]; exact backslash_mem)
      have h3 : ¬ c = '.' := fun e => hm (by rw [e]; exact dot_mem)
      simp only [escapeValue, escapeChar, if_neg hm, List.cons_append,
        List.nil_append, List.map_cons]
      rw [parsePattern_other h1 h3 hm, ih]
      rfl

theorem patMatches_lit (v : List Char) :
    ∀ s : List Char, patMatches (v.map some) s = true ↔ s = v := by
  induction v with
  | nil =>
    intro s
    cases s <;> simp [patMatches]
  | cons c t ih =>
    intro s
    cases s with
    | nil => simp [patMatches]
    | cons d s2 =>
      simp only [List.map_cons, patMatches, Bool.and_eq_true, decide_eq_true_eq]
      constructor
      · rintro ⟨h1, h2⟩
        rw [← h1, (ih s2).mp h2]
      · intro h
        injection h with h1 h2
        exact ⟨h1.symm, (ih s2).mpr h2⟩

/-- C9: the Context Query Generator regex- and quote-escapes the entity
value before interpolating it into the generated query string, so that
the generated query, parsed back as a match condition, matches only the
literal entity value (and not unintended superstrings or variants). -/
theorem c9_entity_escaping (cat : TargetCategory) (field v tf : String)
    (hf : '\'' ∉ field.data) :
    parseMatchCondition (renderQuery cat field v tf) = some (v.data.map some)
    ∧ (∀ s : List Char, patMatches (v.data.map some) s = true ↔ s = v.data) := by
  refine ⟨?_, fun s => patMatches_lit v.data s⟩
  unfold parseMatchCondition renderQuery matchClause
  have hdata : ("FROM " ++ catSource cat ++ " WHERE "
        ++ (field ++ " MATCHES_REGEX " ++ quoteS ++ escapeString v ++ quoteS)
        ++ catCondition cat ++ " EARLIEST=" ++ tf).data
      = ("FROM ".data ++ (catSource cat).data ++ " WHERE ".data
          ++ field.data ++ " MATCHES_REGEX ".data)
        ++ '\'' :: (escapeValue v.data
          ++ '\'' :: ((catCondition cat).data ++ " EARLIEST=".data ++ tf.data)) := by
    simp [String.data_append, escapeString_data, quoteS_data, List.append_assoc]
  rw [hdata]
  have hpre : '\'' ∉ ("FROM ".data ++ (catSource cat).data ++ " WHERE ".data
      ++ field.data ++ " MATCHES_REGEX ".data) := by
    intro hmem
    simp only [List.mem_append] at hmem
    rcases hmem with ((((h | h) | h) | h) | h)
    · revert h; decide
    · cases cat <;> revert h <;> decide
    · revert h; decide
    · exact hf h
    · revert h; decide
  rw [dropToQuote_append _ _ hpre]
  simp [readQuoted_escaped, parsePattern_escaped]

/-- Witness for C9: the value `a.b*c` with regex metacharacters, rendered
into the open-alerts query, parses back to a condition that matches
`a.b*c` itself and does not match the variant `aXbYc`. -/
theorem c9_entity_escaping_witness :
    parseMatchCondition (renderQuery TargetCategory.open_alerts "@ip" "a.b*c" "-1d")
      = some ("a.b*c".data.map some)
    ∧ (patMatches ("a.b*c".data.map some) "a.b*c".data = true ↔ "a.b*c".data = "a.b*c".data)
    ∧ (patMatches ("a.b*c".data.map some) "aXbYc".data = true ↔ "aXbYc".data = "a.b*c".data) := by
  have h := c9_entity_escaping TargetCategory.open_alerts "@ip" "a.b*c" "-1d" (by decide)
  exact ⟨h.1, h.2 "a.b*c".data, h.2 "aXbYc".data⟩

end Taegis
